import Mathlib

/-!
Verification of the DCF valuation core of `src/app.py`
(forward DCF projector, implied-growth solver, WACC estimator,
sensitivity grid).  Monetary quantities and rates are modelled as
exact rationals; a Python float computation that raises
(ZeroDivisionError caught by a bare except returning None) is
modelled as `Option.none`.  scipy is an optional external
dependency of the source; the solver path embedded here is the one
whose code is entirely in the repository (the bisection branch),
and the dense fallback scan of the scipy branch is embedded
separately as `dense_scan`.
-/

namespace DCF

/-- Embedding of the projection loop of `calculate_dcf_ev`
(src/app.py lines 220-226): starting from `fcf`, for
`year = 1..years`, compound by `(1+growth_rate)` and accumulate the
discounted value.  Returns `(pv_sum, curr_fcf)`. -/
def dcfLoop (growth_rate wacc fcf : ℚ) (years : ℕ) : ℚ × ℚ :=
  (List.range years).foldl
    (fun acc y =>
      (acc.1 + acc.2 * (1 + growth_rate) / (1 + wacc) ^ (y + 1),
       acc.2 * (1 + growth_rate)))
    (0, fcf)

/-- Embedding of `calculate_dcf_ev` (src/app.py lines 217-234).
The two `none` branches model the Python ZeroDivisionError raised
when `1 + wacc = 0` (discounting in the loop, possible only for
`years >= 1`) or `wacc - terminal_growth = 0` (terminal value),
which the bare `except` turns into `None`. -/
def calculate_dcf_ev (growth_rate fcf wacc terminal_growth : ℚ) (years : ℕ) : Option ℚ :=
  if 1 + wacc = 0 ∧ years ≠ 0 then none
  else if wacc - terminal_growth = 0 then none
  else
    let p := dcfLoop growth_rate wacc fcf years
    let terminal_val := p.2 * (1 + terminal_growth) / (wacc - terminal_growth)
    let pv_terminal := terminal_val / (1 + wacc) ^ years
    some (p.1 + pv_terminal)

/-- Closed form of the enterprise value computed by
`calculate_dcf_ev` on the non-error path (proved equal below in
`calc_ev_eq_some`). -/
def evFormula (growth_rate fcf wacc terminal_growth : ℚ) (years : ℕ) : ℚ :=
  (∑ y ∈ Finset.Icc 1 years, fcf * (1 + growth_rate) ^ y / (1 + wacc) ^ y)
    + fcf * (1 + growth_rate) ^ years * (1 + terminal_growth)
        / (wacc - terminal_growth) / (1 + wacc) ^ years

/-- Embedding of the local function `equation` inside
`reverse_dcf_solver` (src/app.py lines 241-243):
`ev - target_ev if ev else 1e15`.  Python truthiness makes both
`None` and an enterprise value of exactly `0` fall into the `1e15`
branch. -/
def equation (target_ev fcf wacc terminal_growth : ℚ) (years : ℕ) (g : ℚ) : ℚ :=
  match calculate_dcf_ev g fcf wacc terminal_growth years with
  | none => (10 : ℚ) ^ 15
  | some ev => if ev = 0 then (10 : ℚ) ^ 15 else ev - target_ev

/-- Embedding of the iteration of `bisection_solver`
(src/app.py lines 201-215).  The midpoint `(a+b)/2` is written out
where the source names it `c`; the fuel argument is `max_iter`. -/
def bisection_loop (func : ℚ → ℚ) (tol : ℚ) : ℕ → ℚ → ℚ → ℚ → ℚ → ℚ
  | 0, a, b, _, _ => (a + b) / 2
  | n + 1, a, b, fa, fb =>
    if |func ((a + b) / 2)| < tol ∨ |b - a| < tol then (a + b) / 2
    else if fa * func ((a + b) / 2) < 0 then
      bisection_loop func tol n a ((a + b) / 2) fa (func ((a + b) / 2))
    else
      bisection_loop func tol n ((a + b) / 2) b (func ((a + b) / 2)) fb

/-- Embedding of `bisection_solver` (src/app.py lines 189-215): when
the bracket shows no sign change (`fa * fb > 0`) the midpoint is
returned at once. -/
def bisection_solver (func : ℚ → ℚ) (a b tol : ℚ) (max_iter : ℕ) : ℚ :=
  if func a * func b > 0 then (a + b) / 2
  else bisection_loop func tol max_iter a b (func a) (func b)

/-- Embedding of `reverse_dcf_solver` (src/app.py lines 236-280) on
the path whose code is entirely in the repository
(`HAS_SCIPY = False`, lines 252-259): the in-repo bisection runs
over `[-0.30, 2.0]` with `tol = 1e-6` and `max_iter = 100`, and the
result is accepted as converged only when the residual is within
one percent of the target.  The scipy branch calls the external
`brentq`; the fallback scan reached through its `ValueError` is
embedded as `dense_scan` and `fallback_result`. -/
def reverse_dcf_solver (target_ev fcf wacc terminal_growth : ℚ) (years : ℕ) :
    ℚ × Bool × Option String :=
  let implied_g :=
    bisection_solver (equation target_ev fcf wacc terminal_growth years)
      (-3/10) 2 (1/1000000) 100
  if |equation target_ev fcf wacc terminal_growth years implied_g| < target_ev * (1/100) then
    (implied_g * 100, true, none)
  else
    (implied_g * 100, false, some (r"Approximate solution (within 1% tolerance)"))

/-- Embedding of `np.linspace(-0.20, 1.50, 200)` used by the dense
fallback scan (src/app.py line 264). -/
def scan_rates : List ℚ :=
  (List.range 200).map fun i : ℕ => -1/5 + (i : ℚ) * (17/10) / 199

/-- One step of the dense fallback scan of `reverse_dcf_solver`
(src/app.py lines 268-274): skip samples whose enterprise value is
falsy (`None` or `0`), otherwise keep the sample with the smallest
absolute difference to the target.  The accumulator holds
`(min_diff, best_g)` with `min_diff = none` standing for the
initial infinity. -/
def scan_step (target_ev fcf wacc terminal_growth : ℚ) (years : ℕ)
    (acc : Option ℚ × ℚ) (g : ℚ) : Option ℚ × ℚ :=
  match calculate_dcf_ev g fcf wacc terminal_growth years with
  | none => acc
  | some ev =>
    if ev = 0 then acc
    else
      match acc.1 with
      | none => (some |ev - target_ev|, g)
      | some m => if |ev - target_ev| < m then (some |ev - target_ev|, g) else acc

/-- Embedding of the dense fallback scan of `reverse_dcf_solver`
(src/app.py lines 262-276), reachable in the source only through
the `ValueError` raised by the external `brentq` when the primary
bracket has no sign change. -/
def dense_scan (target_ev fcf wacc terminal_growth : ℚ) (years : ℕ) : ℚ :=
  (scan_rates.foldl (scan_step target_ev fcf wacc terminal_growth years) (none, 0)).2

/-- The triple returned after the dense fallback scan
(src/app.py line 276). -/
def fallback_result (target_ev fcf wacc terminal_growth : ℚ) (years : ℕ) :
    ℚ × Bool × Option String :=
  (dense_scan target_ev fcf wacc terminal_growth years * 100, false,
    some (r"Approximate solution (no exact match found)"))

/-- Invariant of the scan accumulator: either still the initial
infinity, or the recorded minimum is the absolute difference at the
recorded best rate, whose enterprise value is truthy. -/
def scan_good (target_ev fcf wacc terminal_growth : ℚ) (years : ℕ)
    (acc : Option ℚ × ℚ) : Prop :=
  acc.1 = none ∨
    ∃ e, calculate_dcf_ev acc.2 fcf wacc terminal_growth years = some e ∧ e ≠ 0 ∧
      acc.1 = some |e - target_ev|

/-- Embedding of `np.linspace(lo, hi, n)` as used by
`sensitivity_analysis` (src/app.py lines 284-285). -/
def linspace (lo hi : ℚ) (n : ℕ) : List ℚ :=
  (List.range n).map fun i : ℕ => lo + (hi - lo) * (i : ℚ) / ((n : ℚ) - 1)

/-- Embedding of `sensitivity_analysis` (src/app.py lines 282-298):
a 5 x 5 grid of (wacc, terminal growth) pairs, the solver invoked
only when `wacc > term`; a row records the pair and the implied
growth returned by the solver.  The source formats the three
numbers into percentage strings for display; the numbers themselves
are kept here. -/
def sensitivity_analysis (fcf target_ev base_wacc base_terminal : ℚ) (years : ℕ) :
    List (ℚ × ℚ × ℚ) :=
  (linspace (base_wacc - 3/100) (base_wacc + 3/100) 5).flatMap fun wacc =>
    (linspace (base_terminal - 1/100) (base_terminal + 1/100) 5).filterMap fun term =>
      if wacc > term then
        some (wacc, term, (reverse_dcf_solver target_ev fcf wacc term years).1)
      else none

/-- Market-data record consumed by `calculate_wacc`
(the `stock_data` dict fields it reads, src/app.py lines 102-103). -/
structure StockData where
  market_cap : ℚ
  total_debt : ℚ

/-- Optional fields `calculate_wacc` tries to read from the
yfinance stock object (src/app.py lines 120-159): beta from `info`,
interest expense, tax provision and pretax income from the income
statement.  A `none` models a missing key or an exception during
extraction. -/
structure StockInfo where
  beta : Option ℚ
  interest_expense : Option ℚ
  tax_provision : Option ℚ
  pretax_income : Option ℚ

/-- Beta extraction (src/app.py lines 120-129): default `1.0`;
Python truthiness of the read value skips a beta of exactly `0`. -/
def beta_of (obj : Option StockInfo) : ℚ :=
  match obj with
  | none => 1
  | some o =>
    match o.beta with
    | none => 1
    | some b => if b = 0 then 1 else b

/-- Cost of debt (src/app.py lines 136-149): default `0.05`;
`abs(interest_expense) / total_debt` when the stock object is
present, debt is positive and the income statement lists an
interest expense. -/
def cost_of_debt_of (obj : Option StockInfo) (total_debt : ℚ) : ℚ :=
  match obj with
  | none => 5/100
  | some o =>
    if 0 < total_debt then
      match o.interest_expense with
      | none => 5/100
      | some ie => |ie| / total_debt
    else 5/100

/-- Effective tax rate (src/app.py lines 137-157): default `0.21`;
`tax_provision / pretax_income` when the stock object is present,
debt is positive, both statement lines exist and pretax income is
positive. -/
def tax_rate_of (obj : Option StockInfo) (total_debt : ℚ) : ℚ :=
  match obj with
  | none => 21/100
  | some o =>
    if 0 < total_debt then
      match o.tax_provision, o.pretax_income with
      | some tp, some pti => if 0 < pti then tp / pti else 21/100
      | _, _ => 21/100
    else 21/100

/-- The WACC formula of src/app.py lines 131-173: CAPM cost of
equity with `risk_free_rate = 0.045` and `market_return = 0.10`,
after-tax cost of debt, weighted by market cap and total debt. -/
def wacc_formula (d : StockData) (obj : Option StockInfo) : ℚ :=
  let cost_of_equity := 45/1000 + beta_of obj * (1/10 - 45/1000)
  let cost_of_debt := cost_of_debt_of obj d.total_debt
  let tax_rate := tax_rate_of obj d.total_debt
  let total_value := d.market_cap + d.total_debt
  let equity_weight := d.market_cap / total_value
  let debt_weight := d.total_debt / total_value
  equity_weight * cost_of_equity + debt_weight * cost_of_debt * (1 - tax_rate)

/-- Provenance part of the components dict returned by
`calculate_wacc`: either the default path with its reason string or
the calculated path. -/
inductive WaccBreakdown
  | default (reason : String)
  | calculated (wacc : ℚ)
deriving DecidableEq

/-- Embedding of `calculate_wacc` (src/app.py lines 85-187).  The
source formats the computed percentage into the out-of-range reason
string; the constant part of that f-string is kept here. -/
def calculate_wacc (d : StockData) (obj : Option StockInfo) : ℚ × WaccBreakdown :=
  if d.market_cap = 0 then (1/10, WaccBreakdown.default (r"No market cap data"))
  else if d.market_cap + d.total_debt = 0 then
    (1/10, WaccBreakdown.default (r"Zero total value"))
  else
    if wacc_formula d obj < 3/100 ∨ wacc_formula d obj > 30/100 then
      (1/10, WaccBreakdown.default (r"WACC out of reasonable range"))
    else (wacc_formula d obj, WaccBreakdown.calculated (wacc_formula d obj))

theorem dcfLoop_eq (g wacc fcf : ℚ) (N : ℕ) :
    dcfLoop g wacc fcf N =
      (∑ y ∈ Finset.Icc 1 N, fcf * (1 + g) ^ y / (1 + wacc) ^ y, fcf * (1 + g) ^ N) := by
  induction N with
  | zero => simp [dcfLoop]
  | succ n ih =>
    unfold dcfLoop at ih ⊢
    rw [List.range_succ, List.foldl_append, ih]
    simp only [List.foldl_cons, List.foldl_nil]
    rw [Finset.sum_Icc_succ_top (Nat.succ_le_succ (Nat.zero_le n))]
    simp only [Prod.mk.injEq]
    constructor <;> ring

theorem calc_ev_eq_some (g fcf wacc tg : ℚ) (N : ℕ)
    (h1 : wacc ≠ tg) (h2 : (1 : ℚ) + wacc ≠ 0) :
    calculate_dcf_ev g fcf wacc tg N = some (evFormula g fcf wacc tg N) := by
  unfold calculate_dcf_ev
  rw [if_neg (by simp [h2]), if_neg (sub_ne_zero.mpr h1)]
  rw [dcfLoop_eq]
  unfold evFormula
  simp only []

theorem evFormula_pos (g fcf wacc tg : ℚ) (N : ℕ)
    (hf : 0 < fcf) (hg : -1 < g) (ht : -1 < tg) (hw : tg < wacc) :
    0 < evFormula g fcf wacc tg N := by
  have hw1 : (0 : ℚ) < 1 + wacc := by linarith
  have hg1 : (0 : ℚ) < 1 + g := by linarith
  have ht1 : (0 : ℚ) < 1 + tg := by linarith
  have hd : (0 : ℚ) < wacc - tg := by linarith
  unfold evFormula
  have hterm : 0 < fcf * (1 + g) ^ N * (1 + tg) / (wacc - tg) / (1 + wacc) ^ N := by
    positivity
  have hsum : 0 ≤ ∑ y ∈ Finset.Icc 1 N, fcf * (1 + g) ^ y / (1 + wacc) ^ y := by
    apply Finset.sum_nonneg
    intro y _
    positivity
  linarith

theorem evFormula_lower (x y fcf wacc tg : ℚ) (N : ℕ)
    (hf : 0 < fcf) (ht : -1 < tg) (hw : tg < wacc) (hN : 1 ≤ N)
    (hx : -1 ≤ x) (hxy : x ≤ y) :
    evFormula x fcf wacc tg N + fcf / (1 + wacc) * (y - x) ≤ evFormula y fcf wacc tg N := by
  have hw1 : (0 : ℚ) < 1 + wacc := by linarith
  have hx1 : (0 : ℚ) ≤ 1 + x := by linarith
  have hy1 : (1 : ℚ) + x ≤ 1 + y := by linarith
  have ht1 : (0 : ℚ) < 1 + tg := by linarith
  have hd : (0 : ℚ) < wacc - tg := by linarith
  have hterm : fcf * (1 + x) ^ N * (1 + tg) / (wacc - tg) / (1 + wacc) ^ N
      ≤ fcf * (1 + y) ^ N * (1 + tg) / (wacc - tg) / (1 + wacc) ^ N := by
    have hpow : (1 + x) ^ N ≤ (1 + y) ^ N := pow_le_pow_left₀ hx1 hy1 N
    have hc : (0 : ℚ) ≤ fcf * (1 + tg) / (wacc - tg) / (1 + wacc) ^ N := by positivity
    have e1 : ∀ z : ℚ, fcf * z * (1 + tg) / (wacc - tg) / (1 + wacc) ^ N
        = z * (fcf * (1 + tg) / (wacc - tg) / (1 + wacc) ^ N) := by intro z; ring
    rw [e1, e1]
    exact mul_le_mul_of_nonneg_right hpow hc
  have hsum : fcf / (1 + wacc) * (y - x)
      ≤ (∑ k ∈ Finset.Icc 1 N, fcf * (1 + y) ^ k / (1 + wacc) ^ k)
        - ∑ k ∈ Finset.Icc 1 N, fcf * (1 + x) ^ k / (1 + wacc) ^ k := by
    rw [← Finset.sum_sub_distrib]
    have h1mem : 1 ∈ Finset.Icc 1 N := by
      rw [Finset.mem_Icc]; exact ⟨le_refl 1, hN⟩
    have hterms : ∀ k ∈ Finset.Icc 1 N,
        0 ≤ fcf * (1 + y) ^ k / (1 + wacc) ^ k - fcf * (1 + x) ^ k / (1 + wacc) ^ k := by
      intro k _
      have hpow : (1 + x) ^ k ≤ (1 + y) ^ k := pow_le_pow_left₀ hx1 hy1 k
      have : fcf * (1 + x) ^ k / (1 + wacc) ^ k ≤ fcf * (1 + y) ^ k / (1 + wacc) ^ k := by
        have h2 : fcf * (1 + x) ^ k ≤ fcf * (1 + y) ^ k :=
          mul_le_mul_of_nonneg_left hpow (le_of_lt hf)
        exact (div_le_div_iff_of_pos_right (by positivity)).mpr h2
      linarith
    have hone := Finset.single_le_sum hterms h1mem
    have hval : fcf * (1 + y) ^ 1 / (1 + wacc) ^ 1 - fcf * (1 + x) ^ 1 / (1 + wacc) ^ 1
        = fcf / (1 + wacc) * (y - x) := by ring
    linarith
  unfold evFormula
  linarith

theorem equation_eq (target fcf wacc tg : ℚ) (N : ℕ) (g : ℚ)
    (hf : 0 < fcf) (hg : -1 < g) (ht : -1 < tg) (hw : tg < wacc) :
    equation target fcf wacc tg N g = evFormula g fcf wacc tg N - target := by
  have hw1 : (0 : ℚ) < 1 + wacc := by linarith
  unfold equation
  rw [calc_ev_eq_some g fcf wacc tg N (ne_of_gt hw) (ne_of_gt hw1)]
  dsimp only
  rw [if_neg (ne_of_gt (evFormula_pos g fcf wacc tg N hf hg ht hw))]

theorem bisection_loop_mem (func : ℚ → ℚ) (tol : ℚ) :
    ∀ (n : ℕ) (a b fa fb : ℚ), a ≤ b →
      a ≤ bisection_loop func tol n a b fa fb ∧ bisection_loop func tol n a b fa fb ≤ b := by
  intro n
  induction n with
  | zero =>
    intro a b fa fb hab
    unfold bisection_loop
    constructor <;> linarith
  | succ n ih =>
    intro a b fa fb hab
    simp only [bisection_loop]
    split_ifs with h1 h2
    · constructor <;> linarith
    · have := ih a ((a + b) / 2) fa (func ((a + b) / 2)) (by linarith)
      constructor <;> linarith [this.1, this.2]
    · have := ih ((a + b) / 2) b (func ((a + b) / 2)) fb (by linarith)
      constructor <;> linarith [this.1, this.2]

theorem bisection_solver_mem (func : ℚ → ℚ) (a b tol : ℚ) (max_iter : ℕ) (hab : a ≤ b) :
    a ≤ bisection_solver func a b tol max_iter ∧ bisection_solver func a b tol max_iter ≤ b := by
  unfold bisection_solver
  split_ifs with h
  · constructor <;> linarith
  · exact bisection_loop_mem func tol max_iter a b (func a) (func b) hab

theorem bisection_loop_close (func : ℚ → ℚ) (tol m a0 b0 g : ℚ)
    (htol : 0 < tol) (hm : 0 < m) (hroot : func g = 0)
    (hlip : ∀ x y : ℚ, a0 ≤ x → x ≤ y → y ≤ b0 → m * (y - x) ≤ func y - func x) :
    ∀ (n : ℕ) (a b : ℚ), a0 ≤ a → a < g → g < b → b ≤ b0 →
      func a < 0 → 0 < func b →
      |bisection_loop func tol n a b (func a) (func b) - g|
        ≤ max (tol / m) (max (tol / 2) ((b - a) / 2 ^ n)) := by
  intro n
  induction n with
  | zero =>
    intro a b ha0 hag hgb hb0 hfa hfb
    unfold bisection_loop
    have h : |(a + b) / 2 - g| ≤ (b - a) / 2 ^ 0 := by
      rw [abs_le]
      constructor <;> · norm_num; linarith
    exact le_trans h ((le_max_right _ _).trans (le_max_right _ _))
  | succ n ih =>
    intro a b ha0 hag hgb hb0 hfa hfb
    have hab : a < b := lt_trans hag hgb
    simp only [bisection_loop]
    split_ifs with h1 h2
    · rcases h1 with hfc | hba
      · -- small residual at the midpoint: the Lipschitz lower bound gives closeness
        have hclose : m * |(a + b) / 2 - g| ≤ |func ((a + b) / 2)| := by
          rcases le_or_lt g ((a + b) / 2) with hge | hlt
          · have hl := hlip g ((a + b) / 2) (by linarith) hge (by linarith)
            rw [hroot] at hl
            have habs : func ((a + b) / 2) ≤ |func ((a + b) / 2)| := le_abs_self _
            rw [abs_of_nonneg (by linarith : (0 : ℚ) ≤ (a + b) / 2 - g)]
            linarith
          · have hl := hlip ((a + b) / 2) g (by linarith) (le_of_lt hlt) (by linarith)
            rw [hroot] at hl
            have habs : -func ((a + b) / 2) ≤ |func ((a + b) / 2)| := neg_le_abs _
            rw [abs_of_neg (by linarith : (a + b) / 2 - g < 0)]
            linarith
        have hbound : |(a + b) / 2 - g| ≤ tol / m := by
          rw [le_div_iff₀ hm]
          nlinarith [hclose, hfc]
        exact le_trans hbound (le_max_left _ _)
      · have hba2 : b - a < tol := by
          rw [abs_of_pos (by linarith : (0 : ℚ) < b - a)] at hba
          exact hba
        have h : |(a + b) / 2 - g| ≤ (b - a) / 2 := by
          rw [abs_le]; constructor <;> linarith
        exact le_trans (by linarith : |(a + b) / 2 - g| ≤ tol / 2)
          ((le_max_left _ _).trans (le_max_right _ _))
    · -- sign change on the left half: the root is left of the midpoint
      have hfc_pos : 0 < func ((a + b) / 2) := by
        by_contra hle
        push_neg at hle
        nlinarith
      have hgc : g < (a + b) / 2 := by
        by_contra hle
        push_neg at hle
        have hl := hlip ((a + b) / 2) g (by linarith) hle (by linarith)
        rw [hroot] at hl
        nlinarith
      have hrec := ih a ((a + b) / 2) ha0 hag hgc (by linarith) hfa hfc_pos
      refine le_trans hrec ?_
      have heq : ((a + b) / 2 - a) / 2 ^ n = (b - a) / 2 ^ (n + 1) := by
        rw [pow_succ]; ring
      rw [heq]
    · -- no sign change on the left half: the root is right of the midpoint
      have hfc_ne : func ((a + b) / 2) ≠ 0 := by
        intro h0
        exact h1 (Or.inl (by rw [h0]; simpa using htol))
      have hfc_neg : func ((a + b) / 2) < 0 := by
        rcases lt_trichotomy (func ((a + b) / 2)) 0 with h | h | h
        · exact h
        · exact absurd h hfc_ne
        · exact absurd (mul_neg_of_neg_of_pos hfa h) h2
      have hcg : (a + b) / 2 < g := by
        by_contra hle
        push_neg at hle
        have hl := hlip g ((a + b) / 2) (by linarith) hle (by linarith)
        rw [hroot] at hl
        nlinarith
      have hrec := ih ((a + b) / 2) b (by linarith) hcg hgb hb0 hfc_neg hfb
      refine le_trans hrec ?_
      have heq : (b - (a + b) / 2) / 2 ^ n = (b - a) / 2 ^ (n + 1) := by
        rw [pow_succ]; ring
      rw [heq]

theorem scan_step_good (t fcf wacc tg : ℚ) (N : ℕ) (acc : Option ℚ × ℚ) (g : ℚ)
    (h : scan_good t fcf wacc tg N acc) :
    scan_good t fcf wacc tg N (scan_step t fcf wacc tg N acc g) := by
  obtain ⟨accm, accg⟩ := acc
  unfold scan_step
  rcases hE : calculate_dcf_ev g fcf wacc tg N with _ | ev
  · exact h
  · dsimp only
    split_ifs with hev
    · exact h
    · rcases accm with _ | m
      · exact Or.inr ⟨ev, hE, hev, rfl⟩
      · dsimp only
        split_ifs with hlt
        · exact Or.inr ⟨ev, hE, hev, rfl⟩
        · exact h

theorem scan_foldl_good (t fcf wacc tg : ℚ) (N : ℕ) :
    ∀ (l : List ℚ) (acc : Option ℚ × ℚ), scan_good t fcf wacc tg N acc →
      scan_good t fcf wacc tg N (l.foldl (scan_step t fcf wacc tg N) acc) := by
  intro l
  induction l with
  | nil => intro acc h; exact h
  | cons a l ih =>
    intro acc h
    exact ih _ (scan_step_good t fcf wacc tg N acc a h)

theorem scan_step_le (t fcf wacc tg : ℚ) (N : ℕ) (acc : Option ℚ × ℚ) (g : ℚ) (m : ℚ)
    (h : acc.1 = some m) :
    ∃ m2, (scan_step t fcf wacc tg N acc g).1 = some m2 ∧ m2 ≤ m := by
  obtain ⟨accm, accg⟩ := acc
  dsimp only at h
  subst h
  unfold scan_step
  rcases hE : calculate_dcf_ev g fcf wacc tg N with _ | ev
  · exact ⟨m, rfl, le_refl m⟩
  · dsimp only
    split_ifs with hev hlt
    · exact ⟨m, rfl, le_refl m⟩
    · exact ⟨|ev - t|, rfl, le_of_lt hlt⟩
    · exact ⟨m, rfl, le_refl m⟩

theorem scan_foldl_le (t fcf wacc tg : ℚ) (N : ℕ) :
    ∀ (l : List ℚ) (acc : Option ℚ × ℚ) (m : ℚ), acc.1 = some m →
      ∃ m2, (l.foldl (scan_step t fcf wacc tg N) acc).1 = some m2 ∧ m2 ≤ m := by
  intro l
  induction l with
  | nil => intro acc m h; exact ⟨m, h, le_refl m⟩
  | cons a l ih =>
    intro acc m h
    obtain ⟨m1, h1, hle1⟩ := scan_step_le t fcf wacc tg N acc a m h
    obtain ⟨m2, h2, hle2⟩ := ih _ m1 h1
    exact ⟨m2, h2, le_trans hle2 hle1⟩

theorem scan_step_hit (t fcf wacc tg : ℚ) (N : ℕ) (acc : Option ℚ × ℚ) (g : ℚ) (ev : ℚ)
    (hE : calculate_dcf_ev g fcf wacc tg N = some ev) (hev : ev ≠ 0) :
    ∃ m2, (scan_step t fcf wacc tg N acc g).1 = some m2 ∧ m2 ≤ |ev - t| := by
  obtain ⟨accm, accg⟩ := acc
  unfold scan_step
  rw [hE]
  dsimp only
  rw [if_neg hev]
  rcases accm with _ | m
  · exact ⟨|ev - t|, rfl, le_refl _⟩
  · dsimp only
    split_ifs with hlt
    · exact ⟨|ev - t|, rfl, le_refl _⟩
    · push_neg at hlt
      exact ⟨m, rfl, hlt⟩

theorem scan_foldl_hit (t fcf wacc tg : ℚ) (N : ℕ) :
    ∀ (l : List ℚ) (acc : Option ℚ × ℚ) (g : ℚ) (ev : ℚ), g ∈ l →
      calculate_dcf_ev g fcf wacc tg N = some ev → ev ≠ 0 →
      ∃ m2, (l.foldl (scan_step t fcf wacc tg N) acc).1 = some m2 ∧ m2 ≤ |ev - t| := by
  intro l
  induction l with
  | nil => intro acc g ev hmem; exact absurd hmem (List.not_mem_nil g)
  | cons a l ih =>
    intro acc g ev hmem hE hev
    rcases List.mem_cons.mp hmem with rfl | hmem2
    · obtain ⟨m1, h1, hle1⟩ := scan_step_hit t fcf wacc tg N acc g ev hE hev
      obtain ⟨m2, h2, hle2⟩ := scan_foldl_le t fcf wacc tg N l _ m1 h1
      exact ⟨m2, h2, le_trans hle2 hle1⟩
    · exact ih _ g ev hmem2 hE hev

theorem dense_scan_min (t fcf wacc tg : ℚ) (N : ℕ) (g ev : ℚ)
    (hmem : g ∈ scan_rates)
    (hE : calculate_dcf_ev g fcf wacc tg N = some ev) (hev : ev ≠ 0) :
    ∃ e2, calculate_dcf_ev (dense_scan t fcf wacc tg N) fcf wacc tg N = some e2 ∧
      e2 ≠ 0 ∧ |e2 - t| ≤ |ev - t| := by
  obtain ⟨m2, h2, hle2⟩ :=
    scan_foldl_hit t fcf wacc tg N scan_rates (none, 0) g ev hmem hE hev
  have hgood := scan_foldl_good t fcf wacc tg N scan_rates (none, 0) (Or.inl rfl)
  rcases hgood with hnone | ⟨e2, hc, hne, heq⟩
  · rw [hnone] at h2
    exact Option.noConfusion h2
  · refine ⟨e2, hc, hne, ?_⟩
    rw [heq] at h2
    rw [Option.some.inj h2]
    exact hle2

theorem linspace_five (lo hi : ℚ) :
    linspace lo hi 5 =
      [lo, lo + (hi - lo) / 4, lo + (hi - lo) / 2, lo + 3 * (hi - lo) / 4, lo + (hi - lo)] := by
  unfold linspace
  rw [show List.range 5 = [0, 1, 2, 3, 4] from rfl]
  simp only [List.map_cons, List.map_nil, List.cons.injEq, and_true]
  refine ⟨?_, ?_, ?_, ?_, ?_⟩ <;> norm_num <;> ring_nf

theorem linspace_centered (c h : ℚ) :
    linspace (c - h) (c + h) 5 = [c - h, c - h / 2, c, c + h / 2, c + h] := by
  rw [linspace_five]
  simp only [List.cons.injEq, and_true]
  refine ⟨by ring_nf, by ring_nf, by ring_nf, by ring_nf, by ring_nf⟩

theorem filterMap_if_length {α β : Type} (p : α → Prop) [DecidablePred p] (f : α → β) :
    ∀ l : List α,
      (l.filterMap fun a => if p a then some (f a) else none).length
        + (l.filter fun a => decide ¬ p a).length = l.length := by
  intro l
  induction l with
  | nil => rfl
  | cons a l ih =>
    by_cases h : p a
    · rw [List.filterMap_cons_some (by rw [if_pos h]),
        List.filter_cons_of_neg (by simp [h]), List.length_cons, List.length_cons]
      omega
    · rw [List.filterMap_cons_none (by rw [if_neg h]),
        List.filter_cons_of_pos (by simp [h]), List.length_cons, List.length_cons]
      omega

theorem scan_rates_length : scan_rates.length = 200 := by
  simp [scan_rates]

theorem scan_rates_bounds (g : ℚ) (h : g ∈ scan_rates) : -1/5 ≤ g ∧ g ≤ 3/2 := by
  unfold scan_rates at h
  obtain ⟨i, hi, rfl⟩ := List.mem_map.mp h
  rw [List.mem_range] at hi
  have h0 : (0 : ℚ) ≤ (i : ℚ) := Nat.cast_nonneg i
  have h199 : (i : ℚ) ≤ 199 := by
    have : i ≤ 199 := Nat.lt_succ_iff.mp hi
    exact_mod_cast this
  constructor
  · nlinarith
  · nlinarith

theorem three_halves_mem_scan_rates : (3/2 : ℚ) ∈ scan_rates := by
  unfold scan_rates
  rw [List.mem_map]
  refine ⟨199, ?_, by norm_num⟩
  rw [List.mem_range]
  norm_num

theorem evFormula_years_zero (g fcf wacc tg : ℚ) :
    evFormula g fcf wacc tg 0 = fcf * (1 + tg) / (wacc - tg) := by
  unfold evFormula
  rw [Finset.Icc_eq_empty (by norm_num), Finset.sum_empty, pow_zero, pow_zero]
  ring

theorem evFormula_one_year (x : ℚ) : evFormula x 1 1 0 1 = x + 1 := by
  unfold evFormula
  rw [Finset.Icc_self, Finset.sum_singleton]
  norm_num
  ring

theorem equation_one_year (t x : ℚ) (hx : -1 < x) :
    equation t 1 1 0 1 x = x + 1 - t := by
  rw [equation_eq t 1 1 0 1 x (by norm_num) hx (by norm_num) (by norm_num),
    evFormula_one_year]

theorem equation_years_zero (target fcf wacc tg g : ℚ) (hd : wacc ≠ tg)
    (hw1 : (1 : ℚ) + wacc ≠ 0) (h0 : fcf * (1 + tg) / (wacc - tg) ≠ 0) :
    equation target fcf wacc tg 0 g = fcf * (1 + tg) / (wacc - tg) - target := by
  unfold equation
  rw [calc_ev_eq_some g fcf wacc tg 0 hd hw1]
  dsimp only
  rw [evFormula_years_zero]
  rw [if_neg h0]

theorem solver_no_bracket (target fcf wacc tg : ℚ) (N : ℕ)
    (hbr : equation target fcf wacc tg N (-3/10) * equation target fcf wacc tg N 2 > 0)
    (hfar : ¬ |equation target fcf wacc tg N ((-3/10 + 2) / 2)| < target * (1/100)) :
    reverse_dcf_solver target fcf wacc tg N
      = ((-3/10 + 2) / 2 * 100, false,
          some (r"Approximate solution (within 1% tolerance)")) := by
  simp only [reverse_dcf_solver, bisection_solver]
  rw [if_pos hbr, if_neg hfar]

theorem solver_close_of_bracket (g fcf wacc tg target : ℚ) (N : ℕ)
    (hf : 0 < fcf) (ht : -1 < tg) (hw : tg < wacc) (hN : 1 ≤ N)
    (hga : -3/10 < g) (hgb : g < 2)
    (htarget : calculate_dcf_ev g fcf wacc tg N = some target) :
    |(reverse_dcf_solver target fcf wacc tg N).1 / 100 - g|
      ≤ max (1/1000000 / (fcf / (1 + wacc)))
          (max (1/1000000 / 2) ((2 - (-3/10)) / 2 ^ 100)) := by
  have hw1 : (0 : ℚ) < 1 + wacc := by linarith
  have hm : 0 < fcf / (1 + wacc) := by positivity
  have htv : evFormula g fcf wacc tg N = target := by
    rw [calc_ev_eq_some g fcf wacc tg N (ne_of_gt hw) (ne_of_gt hw1)] at htarget
    exact Option.some.inj htarget
  have heqn : ∀ x : ℚ, -1 < x →
      equation target fcf wacc tg N x = evFormula x fcf wacc tg N - target :=
    fun x hx => equation_eq target fcf wacc tg N x hf hx ht hw
  have hroot : equation target fcf wacc tg N g = 0 := by
    rw [heqn g (by linarith), htv]
    ring
  have hlip : ∀ x y : ℚ, -3/10 ≤ x → x ≤ y → y ≤ 2 →
      fcf / (1 + wacc) * (y - x)
        ≤ equation target fcf wacc tg N y - equation target fcf wacc tg N x := by
    intro x y hx hxy hy
    rw [heqn x (by linarith), heqn y (by linarith)]
    have := evFormula_lower x y fcf wacc tg N hf ht hw hN (by linarith) hxy
    linarith
  have hfa : equation target fcf wacc tg N (-3/10) < 0 := by
    have h1 := hlip (-3/10) g (le_refl _) (le_of_lt hga) (le_of_lt hgb)
    rw [hroot] at h1
    have h2 : 0 < fcf / (1 + wacc) * (g - -3/10) :=
      mul_pos hm (by linarith)
    linarith
  have hfb : 0 < equation target fcf wacc tg N 2 := by
    have h1 := hlip g 2 (by linarith) (le_of_lt hgb) (le_refl _)
    rw [hroot] at h1
    have h2 : 0 < fcf / (1 + wacc) * (2 - g) :=
      mul_pos hm (by linarith)
    linarith
  have hsolver1 : (reverse_dcf_solver target fcf wacc tg N).1
      = bisection_solver (equation target fcf wacc tg N) (-3/10) 2 (1/1000000) 100 * 100 := by
    simp only [reverse_dcf_solver]
    split_ifs <;> rfl
  have hbis : bisection_solver (equation target fcf wacc tg N) (-3/10) 2 (1/1000000) 100
      = bisection_loop (equation target fcf wacc tg N) (1/1000000) 100 (-3/10) 2
          (equation target fcf wacc tg N (-3/10)) (equation target fcf wacc tg N 2) := by
    unfold bisection_solver
    rw [if_neg (not_lt.mpr (le_of_lt (mul_neg_of_neg_of_pos hfa hfb)))]
  have hclose := bisection_loop_close (equation target fcf wacc tg N) (1/1000000)
    (fcf / (1 + wacc)) (-3/10) 2 g (by norm_num) hm hroot hlip 100 (-3/10) 2
    (le_refl _) hga hgb (le_refl _) hfa hfb
  have hdiv : bisection_solver (equation target fcf wacc tg N) (-3/10) 2 (1/1000000) 100 * 100
      / 100 = bisection_solver (equation target fcf wacc tg N) (-3/10) 2 (1/1000000) 100 := by
    ring
  rw [hsolver1, hdiv, hbis]
  exact hclose

/-- C1 (corrected, part 1 - counterexample): the round-trip law
fails for a growth rate outside the solver bracket `[-0.30, 2.0]`.
At `g = 3` (300 percent growth), `fcf = 1`, `wacc = 1`, `tg = 0`,
one projection year, the forward enterprise value is `4`, yet the
solver cannot bracket the root, returns the midpoint rate 85
percent with `converged = false`, and the returned rate differs
from `g` by more than `2`. -/
theorem roundtrip_fails_outside_bracket :
    calculate_dcf_ev 3 1 1 0 1 = some 4 ∧
    reverse_dcf_solver 4 1 1 0 1
      = (85, false, some (r"Approximate solution (within 1% tolerance)")) ∧
    2 < |(reverse_dcf_solver 4 1 1 0 1).1 / 100 - 3| := by
  have hev : calculate_dcf_ev 3 1 1 0 1 = some 4 := by
    rw [calc_ev_eq_some 3 1 1 0 1 (by norm_num) (by norm_num), evFormula_one_year]
    norm_num
  have hsol := solver_no_bracket 4 1 1 0 1
    (by rw [equation_one_year 4 (-3/10) (by norm_num), equation_one_year 4 2 (by norm_num)]
        norm_num)
    (by rw [equation_one_year 4 ((-3/10 + 2) / 2) (by norm_num)]
        rw [show ((-3/10 : ℚ) + 2) / 2 + 1 - 4 = -(43/20) by norm_num, abs_neg,
          abs_of_pos (by norm_num : (0:ℚ) < 43/20)]
        norm_num)
  rw [show ((-3/10 : ℚ) + 2) / 2 * 100 = 85 by norm_num] at hsol
  refine ⟨hev, hsol, ?_⟩
  rw [hsol]
  rw [show ((85 : ℚ), false,
      some (r"Approximate solution (within 1% tolerance)")).1 = 85 from rfl]
  rw [show (85 : ℚ) / 100 - 3 = -(43/20) by norm_num, abs_neg,
    abs_of_pos (by norm_num : (0:ℚ) < 43/20)]
  norm_num

/-- C1 (corrected, part 2 - amended claim): for growth rates inside
the solver bracket `(-0.30, 2.0)`, with `fcf > 0`,
`terminal_growth > -1` and `wacc > terminal_growth`, solving the
reverse DCF with the forward projection enterprise value as target
returns an implied growth rate (in percent, so divided by 100 here)
within an explicit small tolerance of `g`: at most the maximum of
`1e-6 (1+wacc)/fcf`, `5e-7`, and `2.3 / 2 ^ 100`. -/
theorem roundtrip_within_bracket (g fcf wacc tg target : ℚ) (N : ℕ)
    (hf : 0 < fcf) (ht : -1 < tg) (hw : tg < wacc) (hN : 1 ≤ N)
    (hga : -3/10 < g) (hgb : g < 2)
    (htarget : calculate_dcf_ev g fcf wacc tg N = some target) :
    |(reverse_dcf_solver target fcf wacc tg N).1 / 100 - g|
      ≤ max (1/1000000 / (fcf / (1 + wacc)))
          (max (1/1000000 / 2) ((2 - (-3/10)) / 2 ^ 100)) :=
  solver_close_of_bracket g fcf wacc tg target N hf ht hw hN hga hgb htarget

/-- Witness for the amended C1 at `g = 1/2`, `fcf = 1`, `wacc = 1`,
`tg = 0`, one projection year, whose forward enterprise value is
`3/2`. -/
theorem roundtrip_within_bracket_witness :
    calculate_dcf_ev (1/2) 1 1 0 1 = some (3/2) ∧
    |(reverse_dcf_solver (3/2) 1 1 0 1).1 / 100 - 1/2|
      ≤ max (1/1000000 / ((1 : ℚ) / (1 + 1)))
          (max (1/1000000 / 2) ((2 - (-3/10)) / 2 ^ 100)) := by
  have hev : calculate_dcf_ev (1/2) 1 1 0 1 = some (3/2) := by
    rw [calc_ev_eq_some (1/2) 1 1 0 1 (by norm_num) (by norm_num), evFormula_one_year]
    norm_num
  exact ⟨hev, roundtrip_within_bracket (1/2) 1 1 0 (3/2) 1 (by norm_num) (by norm_num)
    (by norm_num) (by norm_num) (by norm_num) (by norm_num) hev⟩

/-- C6 (corrected, part 1 - counterexample): on the solver path the
repository itself implements (scipy absent), an input whose
equation has the same sign at both bracket ends does NOT trigger
the dense scan: the bisection primary returns the bracket midpoint
(rate 85 percent).  The scan sample `3/2` has a strictly smaller
absolute residual than the returned midpoint, so the returned rate
is not the residual-minimizing sample. -/
theorem no_bracket_returns_midpoint_not_scan :
    equation 10 1 1 0 1 (-3/10) * equation 10 1 1 0 1 2 > 0 ∧
    reverse_dcf_solver 10 1 1 0 1
      = (85, false, some (r"Approximate solution (within 1% tolerance)")) ∧
    (3/2 : ℚ) ∈ scan_rates ∧
    calculate_dcf_ev (85/100) 1 1 0 1 = some (37/20) ∧
    calculate_dcf_ev (3/2) 1 1 0 1 = some (5/2) ∧
    |(5/2 : ℚ) - 10| < |(37/20 : ℚ) - 10| := by
  have hbr : equation 10 1 1 0 1 (-3/10) * equation 10 1 1 0 1 2 > 0 := by
    rw [equation_one_year 10 (-3/10) (by norm_num), equation_one_year 10 2 (by norm_num)]
    norm_num
  have hsol := solver_no_bracket 10 1 1 0 1 hbr
    (by rw [equation_one_year 10 ((-3/10 + 2) / 2) (by norm_num)]
        rw [show ((-3/10 : ℚ) + 2) / 2 + 1 - 10 = -(163/20) by norm_num, abs_neg,
          abs_of_pos (by norm_num : (0:ℚ) < 163/20)]
        norm_num)
  rw [show ((-3/10 : ℚ) + 2) / 2 * 100 = 85 by norm_num] at hsol
  refine ⟨hbr, hsol, three_halves_mem_scan_rates, ?_, ?_, ?_⟩
  · rw [calc_ev_eq_some (85/100) 1 1 0 1 (by norm_num) (by norm_num), evFormula_one_year]
    norm_num
  · rw [calc_ev_eq_some (3/2) 1 1 0 1 (by norm_num) (by norm_num), evFormula_one_year]
    norm_num
  · rw [show (5/2 : ℚ) - 10 = -(15/2) by norm_num, abs_neg,
      abs_of_pos (by norm_num : (0:ℚ) < 15/2),
      show (37/20 : ℚ) - 10 = -(163/20) by norm_num, abs_neg,
      abs_of_pos (by norm_num : (0:ℚ) < 163/20)]
    norm_num

/-- C6 (corrected, part 2 - amended claim): the dense fallback scan
that the source runs when the external brentq raises (scipy
present) uses exactly 200 samples (at least 100), all lying in
`[-0.20, 1.50]`; its result minimizes the absolute residual
`|ev - target|` over all samples with truthy enterprise value; and
after it the solver returns a plain triple with `converged = false`
and a non-empty diagnostic, never a thrown failure.  Without scipy
the no-bracket case instead returns the bracket midpoint (see the
counterexample). -/
theorem fallback_scan_spec (t fcf wacc tg : ℚ) (N : ℕ) :
    scan_rates.length = 200 ∧
    (∀ g ∈ scan_rates, -1/5 ≤ g ∧ g ≤ 3/2) ∧
    (∀ g ∈ scan_rates, ∀ ev, calculate_dcf_ev g fcf wacc tg N = some ev → ev ≠ 0 →
      ∃ e2, calculate_dcf_ev (dense_scan t fcf wacc tg N) fcf wacc tg N = some e2 ∧
        e2 ≠ 0 ∧ |e2 - t| ≤ |ev - t|) ∧
    (fallback_result t fcf wacc tg N).2.1 = false ∧
    (fallback_result t fcf wacc tg N).2.2 ≠ none ∧
    (fallback_result t fcf wacc tg N).1 = dense_scan t fcf wacc tg N * 100 := by
  refine ⟨scan_rates_length, scan_rates_bounds, ?_, rfl, ?_, rfl⟩
  · intro g hg ev hE hev
    exact dense_scan_min t fcf wacc tg N g ev hg hE hev
  · intro h
    exact Option.noConfusion h

/-- Witness for the amended C6: constant-projection input (zero
years), where the sample `3/2` has truthy enterprise value `1`, so
the scan result is at least as close to the target as that
sample. -/
theorem fallback_scan_spec_witness :
    calculate_dcf_ev (3/2) 1 1 0 0 = some 1 ∧
    (∃ e2, calculate_dcf_ev (dense_scan 0 1 1 0 0) 1 1 0 0 = some e2 ∧
      e2 ≠ 0 ∧ |e2 - 0| ≤ |(1 : ℚ) - 0|) := by
  have hE : calculate_dcf_ev (3/2) 1 1 0 0 = some 1 := by
    rw [calc_ev_eq_some (3/2) 1 1 0 0 (by norm_num) (by norm_num), evFormula_years_zero]
    norm_num
  exact ⟨hE, (fallback_scan_spec 0 1 1 0 0).2.2.1 (3/2) three_halves_mem_scan_rates 1 hE
    (by norm_num)⟩

/-- C7 (confirmed): whenever the in-repo solver reports
`converged = true`, the enterprise value projected at the returned
implied growth rate (converted back from percent) exists and its
absolute difference from the target is below one percent of the
target - the tolerance the source checks before setting the
flag. -/
theorem converged_residual_small (target fcf wacc tg : ℚ) (N : ℕ)
    (hf : 0 < fcf) (ht : -1 < tg) (hw : tg < wacc)
    (hconv : (reverse_dcf_solver target fcf wacc tg N).2.1 = true) :
    ∃ ev, calculate_dcf_ev ((reverse_dcf_solver target fcf wacc tg N).1 / 100) fcf wacc tg N
        = some ev ∧ |ev - target| < target * (1/100) := by
  have hw1 : (0 : ℚ) < 1 + wacc := by linarith
  have hmem := bisection_solver_mem (equation target fcf wacc tg N) (-3/10) 2
    (1/1000000) 100 (by norm_num)
  simp only [reverse_dcf_solver] at hconv ⊢
  split_ifs at hconv ⊢ with h
  · dsimp only
    have hc : bisection_solver (equation target fcf wacc tg N) (-3/10) 2 (1/1000000) 100 * 100
        / 100 = bisection_solver (equation target fcf wacc tg N) (-3/10) 2 (1/1000000) 100 := by
      ring
    rw [hc]
    refine ⟨evFormula (bisection_solver (equation target fcf wacc tg N) (-3/10) 2
      (1/1000000) 100) fcf wacc tg N,
      calc_ev_eq_some _ fcf wacc tg N (ne_of_gt hw) (ne_of_gt hw1), ?_⟩
    rw [equation_eq target fcf wacc tg N _ hf (by linarith [hmem.1]) ht hw] at h
    exact h

/-- C7 witness: at `target = 2`, `fcf = 1`, `wacc = 1`, `tg = 0`,
one projection year, the solver converges (the root `g = 1` lies
inside the bracket and the bisection lands within `2e-6` of it), and
the residual at the returned rate is below one percent of the
target. -/
theorem converged_residual_small_witness :
    (reverse_dcf_solver 2 1 1 0 1).2.1 = true ∧
    ∃ ev, calculate_dcf_ev ((reverse_dcf_solver 2 1 1 0 1).1 / 100) 1 1 0 1 = some ev ∧
      |ev - 2| < 2 * (1/100) := by
  have hev : calculate_dcf_ev 1 1 1 0 1 = some 2 := by
    rw [calc_ev_eq_some 1 1 1 0 1 (by norm_num) (by norm_num), evFormula_one_year]
    norm_num
  have hclose := solver_close_of_bracket 1 1 1 0 2 1 (by norm_num) (by norm_num)
    (by norm_num) (by norm_num) (by norm_num) (by norm_num) hev
  have hboundval : max ((1:ℚ)/1000000 / (1 / (1 + 1)))
      (max (1/1000000 / 2) ((2 - (-3/10)) / 2 ^ 100)) ≤ 1/500000 := by
    rw [max_le_iff, max_le_iff]
    refine ⟨by norm_num, by norm_num, ?_⟩
    norm_num
  have hclose2 : |(reverse_dcf_solver 2 1 1 0 1).1 / 100 - 1| ≤ 1/500000 :=
    le_trans hclose hboundval
  have hc_def : (reverse_dcf_solver 2 1 1 0 1).1 / 100
      = bisection_solver (equation 2 1 1 0 1) (-3/10) 2 (1/1000000) 100 := by
    simp only [reverse_dcf_solver]
    split_ifs <;> · dsimp only; ring
  have hmem := bisection_solver_mem (equation 2 1 1 0 1) (-3/10) 2 (1/1000000) 100 (by norm_num)
  have hcond : |equation 2 1 1 0 1
      (bisection_solver (equation 2 1 1 0 1) (-3/10) 2 (1/1000000) 100)| < 2 * (1/100) := by
    rw [equation_one_year 2 _ (by linarith [hmem.1])]
    rw [hc_def] at hclose2
    rw [show bisection_solver (equation 2 1 1 0 1) (-3/10) 2 (1/1000000) 100 + 1 - 2
        = bisection_solver (equation 2 1 1 0 1) (-3/10) 2 (1/1000000) 100 - 1 from by ring]
    linarith [hclose2]
  have hflag : (reverse_dcf_solver 2 1 1 0 1).2.1 = true := by
    simp only [reverse_dcf_solver]
    rw [if_pos hcond]
  exact ⟨hflag, converged_residual_small 2 1 1 0 1 (by norm_num) (by norm_num)
    (by norm_num) hflag⟩

/-- C8 (confirmed): when the computed WACC falls outside
`[3 percent, 30 percent]`, `calculate_wacc` discards it and returns
the default rate `0.10` with a breakdown marked default and a
reason. -/
theorem wacc_out_of_range_default (d : StockData) (obj : Option StockInfo)
    (h1 : d.market_cap ≠ 0) (h2 : d.market_cap + d.total_debt ≠ 0)
    (h3 : wacc_formula d obj < 3/100 ∨ wacc_formula d obj > 30/100) :
    calculate_wacc d obj
      = (1/10, WaccBreakdown.default (r"WACC out of reasonable range")) := by
  unfold calculate_wacc
  rw [if_neg h1, if_neg h2, if_pos h3]

/-- C8 witness: market cap 100, no debt, beta 80 pushes the CAPM
cost of equity (hence the WACC) to 4.445, far above 30 percent. -/
theorem wacc_out_of_range_default_witness :
    calculate_wacc ⟨100, 0⟩ (some ⟨some 80, none, none, none⟩)
      = (1/10, WaccBreakdown.default (r"WACC out of reasonable range")) := by
  have hb : beta_of (some ⟨some 80, none, none, none⟩) = 80 := by
    unfold beta_of
    dsimp only
    rw [if_neg (by norm_num : ¬(80:ℚ) = 0)]
  have hcd : cost_of_debt_of (some ⟨some 80, none, none, none⟩) (0:ℚ) = 5/100 := by
    unfold cost_of_debt_of
    dsimp only
    rw [if_neg (by norm_num : ¬(0:ℚ) < 0)]
  have htr : tax_rate_of (some ⟨some 80, none, none, none⟩) (0:ℚ) = 21/100 := by
    unfold tax_rate_of
    dsimp only
    rw [if_neg (by norm_num : ¬(0:ℚ) < 0)]
  have h3 : wacc_formula ⟨100, 0⟩ (some ⟨some 80, none, none, none⟩) > 30/100 := by
    unfold wacc_formula
    dsimp only
    rw [hb, hcd, htr]
    norm_num
  exact wacc_out_of_range_default ⟨100, 0⟩ (some ⟨some 80, none, none, none⟩)
    (by norm_num) (by norm_num) (Or.inr h3)

/-- C10 (confirmed): every rate returned by `calculate_wacc` lies
in `[0.03, 0.30]`; moreover every default-marked breakdown comes
with the rate exactly `0.10`. -/
theorem wacc_rate_in_range (d : StockData) (obj : Option StockInfo) :
    (3/100 ≤ (calculate_wacc d obj).1 ∧ (calculate_wacc d obj).1 ≤ 30/100) ∧
    ∀ s, (calculate_wacc d obj).2 = WaccBreakdown.default s →
      (calculate_wacc d obj).1 = 1/10 := by
  unfold calculate_wacc
  split_ifs with h1 h2 h3
  · exact ⟨⟨by norm_num, by norm_num⟩, fun s _ => rfl⟩
  · exact ⟨⟨by norm_num, by norm_num⟩, fun s _ => rfl⟩
  · exact ⟨⟨by norm_num, by norm_num⟩, fun s _ => rfl⟩
  · push_neg at h3
    exact ⟨⟨h3.1, h3.2⟩, fun s hs => by simp at hs⟩

/-- C10 witness: the missing-market-cap path returns the default
rate `0.10`, inside the interval. -/
theorem wacc_rate_in_range_witness :
    (3/100 ≤ (calculate_wacc ⟨0, 0⟩ none).1 ∧ (calculate_wacc ⟨0, 0⟩ none).1 ≤ 30/100) ∧
    (calculate_wacc ⟨0, 0⟩ none).2 = WaccBreakdown.default (r"No market cap data") ∧
    (calculate_wacc ⟨0, 0⟩ none).1 = 1/10 := by
  have hs : (calculate_wacc ⟨0, 0⟩ none).2 = WaccBreakdown.default (r"No market cap data") := by
    unfold calculate_wacc
    rw [if_pos rfl]
  exact ⟨(wacc_rate_in_range ⟨0, 0⟩ none).1, hs, (wacc_rate_in_range ⟨0, 0⟩ none).2 _ hs⟩

/-- C9 (confirmed): the sensitivity grid samples exactly 5 evenly
spaced discount rates centered on the base rate plus or minus 3
percentage points and 5 evenly spaced terminal growths centered on
the base plus or minus 1 percentage point; rows are produced (and
the solver invoked) only for combinations with
`wacc > terminal growth`; the row count is 25 minus the number of
skipped invalid combinations, and every retained row satisfies
`wacc > terminal growth`. -/
theorem sensitivity_grid_shape (fcf target bw bt : ℚ) (N : ℕ) :
    linspace (bw - 3/100) (bw + 3/100) 5
      = [bw - 3/100, bw - 3/100/2, bw, bw + 3/100/2, bw + 3/100] ∧
    linspace (bt - 1/100) (bt + 1/100) 5
      = [bt - 1/100, bt - 1/100/2, bt, bt + 1/100/2, bt + 1/100] ∧
    (sensitivity_analysis fcf target bw bt N).length
      + ((linspace (bw - 3/100) (bw + 3/100) 5).flatMap fun w =>
          (linspace (bt - 1/100) (bt + 1/100) 5).filter fun t => decide ¬ w > t).length
      = 25 ∧
    ∀ r ∈ sensitivity_analysis fcf target bw bt N, r.2.1 < r.1 := by
  have hW := linspace_centered bw (3/100)
  have hT := linspace_centered bt (1/100)
  have seg : ∀ w : ℚ,
      ((linspace (bt - 1/100) (bt + 1/100) 5).filterMap fun term =>
        if w > term then some (w, term, (reverse_dcf_solver target fcf w term N).1)
        else none).length
      + ((linspace (bt - 1/100) (bt + 1/100) 5).filter fun t => decide ¬ w > t).length
      = 5 := by
    intro w
    have hlen := filterMap_if_length (fun t : ℚ => w > t)
      (fun term => (w, term, (reverse_dcf_solver target fcf w term N).1))
      (linspace (bt - 1/100) (bt + 1/100) 5)
    have hTlen : (linspace (bt - 1/100) (bt + 1/100) 5).length = 5 := by
      rw [hT]
      rfl
    rw [hTlen] at hlen
    exact hlen
  refine ⟨hW, hT, ?_, ?_⟩
  · unfold sensitivity_analysis
    rw [hW]
    simp only [List.flatMap_cons, List.flatMap_nil, List.append_nil, List.length_append]
    have s1 := seg (bw - 3/100)
    have s2 := seg (bw - 3/100/2)
    have s3 := seg bw
    have s4 := seg (bw + 3/100/2)
    have s5 := seg (bw + 3/100)
    omega
  · intro r hr
    unfold sensitivity_analysis at hr
    rw [List.mem_flatMap] at hr
    obtain ⟨w, hwmem, hr2⟩ := hr
    rw [List.mem_filterMap] at hr2
    obtain ⟨t, htmem, heq⟩ := hr2
    by_cases hgt : w > t
    · rw [if_pos hgt] at heq
      have hr3 := Option.some.inj heq
      rw [← hr3]
      exact hgt
    · rw [if_neg hgt] at heq
      exact Option.noConfusion heq

/-- C9 witness: with base rate 10 percent and base terminal growth
2.5 percent, the row at `wacc = 7 percent`,
`terminal growth = 1.5 percent` (a zero-year scenario whose solver
result is the midpoint rate 85 percent) is retained and satisfies
`terminal growth < wacc`. -/
theorem sensitivity_grid_shape_witness :
    ((7/100 : ℚ), (3/200 : ℚ), (85 : ℚ)) ∈ sensitivity_analysis 1 5 (1/10) (1/40) 0 ∧
    (3/200 : ℚ) < 7/100 := by
  have hval : (1:ℚ) * (1 + 3/200) / (7/100 - 3/200) = 203/11 := by norm_num
  have hconst : ∀ g : ℚ, equation 5 1 (7/100) (3/200) 0 g = 203/11 - 5 := by
    intro g
    rw [equation_years_zero 5 1 (7/100) (3/200) g (by norm_num) (by norm_num)
      (by norm_num), hval]
  have hsol := solver_no_bracket 5 1 (7/100) (3/200) 0
    (by rw [hconst, hconst]; norm_num)
    (by rw [hconst]
        rw [show (203/11 : ℚ) - 5 = 148/11 by norm_num,
          abs_of_pos (by norm_num : (0:ℚ) < 148/11)]
        norm_num)
  have hsolver : (reverse_dcf_solver 5 1 (7/100) (3/200) 0).1 = 85 := by
    rw [hsol]
    dsimp only
    norm_num
  have hmem : ((7/100 : ℚ), (3/200 : ℚ), (85 : ℚ)) ∈ sensitivity_analysis 1 5 (1/10) (1/40) 0 := by
    unfold sensitivity_analysis
    rw [List.mem_flatMap]
    refine ⟨1/10 - 3/100, ?_, ?_⟩
    · rw [linspace_centered]
      exact List.mem_cons_self _ _
    · rw [List.mem_filterMap]
      refine ⟨1/40 - 1/100, ?_, ?_⟩
      · rw [linspace_centered]
        exact List.mem_cons_self _ _
      · rw [if_pos (by norm_num : (1/10 - 3/100 : ℚ) > 1/40 - 1/100)]
        rw [show (1/10 - 3/100 : ℚ) = 7/100 by norm_num,
          show (1/40 - 1/100 : ℚ) = 3/200 by norm_num, hsolver]
  exact ⟨hmem, (sensitivity_grid_shape 1 5 (1/10) (1/40) 0).2.2.2 (7/100, 3/200, 85) hmem⟩

/-- C2 (confirmed): for positive base cash flow, assumptions with
`wacc > terminal_growth` and `wacc > 0` (the data model requires a
positive discount rate), and at least one projection year,
`calculate_dcf_ev` returns exactly the sum over `year = 1..N` of
`fcf*(1+g)^year/(1+wacc)^year` plus the terminal value
`fcf*(1+g)^N*(1+tg)/(wacc-tg)` discounted by `(1+wacc)^N`. -/
theorem forward_projection_formula (g fcf wacc tg : ℚ) (N : ℕ)
    (_hf : 0 < fcf) (hw : tg < wacc) (hw0 : 0 < wacc) (_hN : 1 ≤ N) :
    calculate_dcf_ev g fcf wacc tg N =
      some ((∑ y ∈ Finset.Icc 1 N, fcf * (1 + g) ^ y / (1 + wacc) ^ y)
        + fcf * (1 + g) ^ N * (1 + tg) / (wacc - tg) / (1 + wacc) ^ N) := by
  rw [calc_ev_eq_some g fcf wacc tg N (ne_of_gt hw) (by linarith)]
  rfl

/-- Witness for C2 at the concrete scenario of the specification
(fcf 10e9, growth 15 percent, terminal 2.5 percent, wacc 10
percent, 5 years). -/
theorem forward_projection_formula_witness :
    calculate_dcf_ev (15/100) (10 * 10 ^ 9) (1/10) (1/40) 5 =
      some ((∑ y ∈ Finset.Icc 1 5, (10 * 10 ^ 9 : ℚ) * (1 + 15/100) ^ y / (1 + 1/10) ^ y)
        + (10 * 10 ^ 9 : ℚ) * (1 + 15/100) ^ 5 * (1 + 1/40) / (1/10 - 1/40) / (1 + 1/10) ^ 5) :=
  forward_projection_formula (15/100) (10 * 10 ^ 9) (1/10) (1/40) 5
    (by norm_num) (by norm_num) (by norm_num) (by norm_num)

/-- C3 (counterexample): `calculate_dcf_ev` does not reject a
non-positive base cash flow: at `fcf = -100` it returns a numeric
enterprise value, at `fcf = 0` it returns `0`, and
`reverse_dcf_solver` likewise runs its root finding on `fcf = -100`
and returns a numeric result triple instead of failing first.  The
positivity check lives in the UI layer of src/app.py (lines
591-595), not in these functions. -/
theorem nonpositive_fcf_computed_not_rejected :
    (calculate_dcf_ev (15/100) (-100) (1/10) (1/40) 5).isSome = true ∧
    calculate_dcf_ev (15/100) 0 (1/10) (1/40) 5 = some 0 ∧
    reverse_dcf_solver 1000 (-100) (1/10) (1/40) 0
      = (85, false, some (r"Approximate solution (within 1% tolerance)")) := by
  refine ⟨?_, ?_, ?_⟩
  · rw [calc_ev_eq_some (15/100) (-100) (1/10) (1/40) 5 (by norm_num) (by norm_num)]
    rfl
  · rw [calc_ev_eq_some (15/100) 0 (1/10) (1/40) 5 (by norm_num) (by norm_num)]
    rw [show evFormula (15/100) 0 (1/10) (1/40) 5 = 0 from by unfold evFormula; simp]
  · have hval : (-100:ℚ) * (1 + 1/40) / (1/10 - 1/40) = -4100/3 := by norm_num
    have hconst : ∀ g : ℚ, equation 1000 (-100) (1/10) (1/40) 0 g = -4100/3 - 1000 := by
      intro g
      rw [equation_years_zero 1000 (-100) (1/10) (1/40) g (by norm_num) (by norm_num)
        (by norm_num), hval]
    have hsol := solver_no_bracket 1000 (-100) (1/10) (1/40) 0
      (by rw [hconst, hconst]; norm_num)
      (by rw [hconst]
          rw [show (-4100/3 : ℚ) - 1000 = -(7100/3) by norm_num, abs_neg,
            abs_of_pos (by norm_num : (0:ℚ) < 7100/3)]
          norm_num)
    rw [show ((-3/10 : ℚ) + 2) / 2 * 100 = 85 by norm_num] at hsol
    exact hsol

/-- C3 (amended): for every `fcf ≤ 0`, as long as no division by
zero occurs (`wacc ≠ tg` and `wacc ≠ -1`), `calculate_dcf_ev`
returns a value rather than failing; the positivity check on the
base cash flow is performed by the UI caller, not by the core. -/
theorem nonpositive_fcf_still_some (g fcf wacc tg : ℚ) (N : ℕ)
    (_hf : fcf ≤ 0) (h1 : wacc ≠ tg) (h2 : wacc ≠ -1) :
    (calculate_dcf_ev g fcf wacc tg N).isSome = true := by
  have hA : ¬(1 + wacc = 0 ∧ N ≠ 0) := fun hc => h2 (by linarith [hc.1])
  have hB : ¬(wacc - tg = 0) := fun hc => h1 (sub_eq_zero.mp hc)
  unfold calculate_dcf_ev
  rw [if_neg hA, if_neg hB]
  rfl

/-- Witness for the amended C3. -/
theorem nonpositive_fcf_still_some_witness :
    (calculate_dcf_ev 0 (-50) (1/8) (1/50) 3).isSome = true :=
  nonpositive_fcf_still_some 0 (-50) (1/8) (1/50) 3
    (by norm_num) (by norm_num) (by norm_num)

/-- C4 (counterexample): `calculate_dcf_ev` returns a numeric
enterprise value both when `wacc < terminal_growth` and when their
difference is only `1e-9`, far below the epsilon the claim
requires; neither case fails. -/
theorem inverted_assumptions_computed_not_rejected :
    (calculate_dcf_ev (15/100) 100 (1/40) (1/10) 5).isSome = true ∧
    (calculate_dcf_ev (15/100) 100 (1/10 + 1/1000000000) (1/10) 5).isSome = true := by
  constructor
  · rw [calc_ev_eq_some (15/100) 100 (1/40) (1/10) 5 (by norm_num) (by norm_num)]
    rfl
  · rw [calc_ev_eq_some (15/100) 100 (1/10 + 1/1000000000) (1/10) 5
      (by norm_num) (by norm_num)]
    rfl

/-- C4 (amended): `calculate_dcf_ev` fails (returns no value)
exactly when `wacc = terminal_growth`, or when `wacc = -1` with at
least one projection year (both are divisions by zero caught by the
bare except); for `wacc < terminal_growth`, and for any nonzero
difference however small, it returns a numeric enterprise value.
There is no epsilon guard. -/
theorem calc_ev_none_iff (g fcf wacc tg : ℚ) (N : ℕ) :
    calculate_dcf_ev g fcf wacc tg N = none ↔ wacc = tg ∨ (wacc = -1 ∧ N ≠ 0) := by
  unfold calculate_dcf_ev
  split_ifs with h1 h2
  · constructor
    · intro _
      exact Or.inr ⟨by linarith [h1.1], h1.2⟩
    · intro _
      rfl
  · constructor
    · intro _
      exact Or.inl (sub_eq_zero.mp h2)
    · intro _
      rfl
  · constructor
    · intro h
      simp at h
    · intro h
      rcases h with h | ⟨h3, h4⟩
      · exact absurd (sub_eq_zero.mpr h) h2
      · exact absurd ⟨by rw [h3]; norm_num, h4⟩ h1

/-- Witness for the amended C4 at equal rates, where the terminal
value divides by zero and the function returns no value. -/
theorem calc_ev_none_iff_witness :
    calculate_dcf_ev (15/100) 100 (1/10) (1/10) 5 = none ↔
      ((1/10 : ℚ) = 1/10 ∨ ((1/10 : ℚ) = -1 ∧ (5 : ℕ) ≠ 0)) :=
  calc_ev_none_iff (15/100) 100 (1/10) (1/10) 5

/-- C5 (confirmed): over the admissible range of growth rates
(growth not below -100 percent; the UI and the solver search range
are both inside it), with positive base cash flow,
`terminal_growth > -1` and `wacc > terminal_growth`, the projected
enterprise value is strictly increasing in the growth rate. -/
theorem ev_strict_mono_in_growth (g1 g2 fcf wacc tg e1 e2 : ℚ) (N : ℕ)
    (hf : 0 < fcf) (ht : -1 < tg) (hw : tg < wacc) (hN : 1 ≤ N)
    (hg1 : -1 ≤ g1) (hlt : g1 < g2)
    (h1 : calculate_dcf_ev g1 fcf wacc tg N = some e1)
    (h2 : calculate_dcf_ev g2 fcf wacc tg N = some e2) :
    e1 < e2 := by
  have hw1 : (0 : ℚ) < 1 + wacc := by linarith
  rw [calc_ev_eq_some g1 fcf wacc tg N (ne_of_gt hw) (ne_of_gt hw1)] at h1
  rw [calc_ev_eq_some g2 fcf wacc tg N (ne_of_gt hw) (ne_of_gt hw1)] at h2
  have hm : 0 < fcf / (1 + wacc) := by positivity
  have hlow := evFormula_lower g1 g2 fcf wacc tg N hf ht hw hN hg1 (le_of_lt hlt)
  have hpos : 0 < fcf / (1 + wacc) * (g2 - g1) := mul_pos hm (by linarith)
  have he1 := Option.some.inj h1
  have he2 := Option.some.inj h2
  rw [← he1, ← he2]
  linarith

/-- Witness for C5 at `g1 = 0 < g2 = 1` with unit cash flow. -/
theorem ev_strict_mono_in_growth_witness :
    calculate_dcf_ev 0 1 1 0 1 = some 1 ∧ calculate_dcf_ev 1 1 1 0 1 = some 2 ∧
      (1 : ℚ) < 2 := by
  have h1 : calculate_dcf_ev 0 1 1 0 1 = some 1 := by
    rw [calc_ev_eq_some 0 1 1 0 1 (by norm_num) (by norm_num), evFormula_one_year]
    norm_num
  have h2 : calculate_dcf_ev 1 1 1 0 1 = some 2 := by
    rw [calc_ev_eq_some 1 1 1 0 1 (by norm_num) (by norm_num), evFormula_one_year]
    norm_num
  exact ⟨h1, h2, ev_strict_mono_in_growth 0 1 1 1 0 1 2 1 (by norm_num) (by norm_num)
    (by norm_num) (by norm_num) (by norm_num) (by norm_num) h1 h2⟩

end DCF
